import Mathlib

/-!
Verification of the timezone-analytics server core (src/server/index.js).

The JavaScript core is shallowly embedded: the scorer `analyzeHourlyCounts`,
the histogram accumulator `accumulateHoursFromActivity`, the cache key
computation and the request handler of `POST /api/timezone` become pure Lean
functions.  JavaScript numbers are modelled exactly: histogram buckets are
`Nat`, UTC offsets are `Int`, and the single fractional quantity (`ratio`)
is `ℚ`.  `Date.parse` is an environment primitive, so an activity event
carries the parse result of its `block_time` as an `Option Int` (milliseconds
since the epoch, `none` for an unparseable string).  JavaScript string
operations (`toLowerCase`, the default `sort` comparison by code units) are
modelled on the underlying character lists.
-/

/-- The fixed 27-entry offset→IANA-zone table `tzExamples` of
src/server/index.js (keys are written there as decimal strings of the
offset; here the key is the offset itself). -/
def tzExamples : List (Int × String) :=
  [(-12, "Etc/GMT+12"), (-11, "Pacific/Pago_Pago"), (-10, "Pacific/Honolulu"),
   (-9, "America/Anchorage"), (-8, "America/Los_Angeles"), (-7, "America/Denver"),
   (-6, "America/Chicago"), (-5, "America/New_York"), (-4, "America/Halifax"),
   (-3, "America/Sao_Paulo"), (-2, "Atlantic/South_Georgia"), (-1, "Atlantic/Azores"),
   (0, "Etc/UTC"), (1, "Europe/Berlin"), (2, "Europe/Kaliningrad"), (3, "Europe/Moscow"),
   (4, "Asia/Dubai"), (5, "Asia/Karachi"), (6, "Asia/Dhaka"), (7, "Asia/Bangkok"),
   (8, "Asia/Shanghai"), (9, "Asia/Tokyo"), (10, "Australia/Sydney"), (11, "Pacific/Noumea"),
   (12, "Pacific/Auckland"), (13, "Pacific/Tongatapu"), (14, "Pacific/Kiritimati")]

/-- `exampleTz` of src/server/index.js: table lookup with default `"Etc/UTC"`. -/
def exampleTz (offset : Int) : String :=
  match tzExamples.find? (fun p => p.fst == offset) with
  | some p => p.snd
  | none => "Etc/UTC"

/-- The guard of the inner loop of `analyzeHourlyCounts`: hour `i` shifted by
`offset` lands in the local daytime window, `8 <= (i + offset + 24) % 24 < 18`. -/
def inDaytime (offset : Int) (i : Nat) : Prop :=
  8 ≤ ((i : Int) + offset + 24) % 24 ∧ ((i : Int) + offset + 24) % 24 < 18

instance (offset : Int) (i : Nat) : Decidable (inDaytime offset i) :=
  inferInstanceAs (Decidable (_ ∧ _))

/-- The inner loop of `analyzeHourlyCounts`: `daySum` accumulated over
`i = 0..23`, adding `counts[i]` exactly when `(i + offset + 24) % 24` lies in
`[8, 18)`. -/
def daytimeSum (counts : List Nat) (offset : Int) : Nat :=
  (List.range 24).foldl
    (fun daySum i => if inDaytime offset i then daySum + counts.getD i 0 else daySum) 0

/-- The offsets evaluated by the outer loop of `analyzeHourlyCounts`:
`-12, -11, ..., 14`, in this (ascending) order. -/
def offsetCandidates : List Int :=
  (List.range 27).map (fun k => (k : Int) - 12)

/-- One iteration of the outer loop of `analyzeHourlyCounts`: the running
best is `(bestOffset, bestScore)` where `bestScore = none` stands for the
initial `-Infinity`, and the update fires exactly when `daySum > bestScore`. -/
def scoreStep (f : Int → Nat) (best : Int × Option Nat) (offset : Int) : Int × Option Nat :=
  match best.snd with
  | none => (offset, some (f offset))
  | some bestScore => if bestScore < f offset then (offset, some (f offset)) else best

/-- The outer loop of `analyzeHourlyCounts`: fold `scoreStep` over the 27
candidate offsets starting from `bestOffset = 0`, `bestScore = -Infinity`. -/
def bestOffsetScore (counts : List Nat) : Int × Option Nat :=
  offsetCandidates.foldl (scoreStep (daytimeSum counts)) (0, none)

/-- `total` of `analyzeHourlyCounts`: `counts.reduce((a, b) => a + b, 0)`. -/
def totalOf (counts : List Nat) : Nat :=
  counts.foldl (· + ·) 0

/-- `median` of `analyzeHourlyCounts`: element at index
`Math.floor(sorted.length / 2)` of an ascending sort of a copy of `counts`
(the input list itself is left untouched). -/
def medianOf (counts : List Nat) : Nat :=
  (List.insertionSort (· ≤ ·) counts).getD ((List.insertionSort (· ≤ ·) counts).length / 2) 0

/-- `ratio` of `analyzeHourlyCounts`: `total ? bestScore / total : 0`,
as an exact rational. -/
def ratioOf (counts : List Nat) : ℚ :=
  if totalOf counts = 0 then 0
  else ((bestOffsetScore counts).snd.getD 0 : ℚ) / (totalOf counts : ℚ)

/-- `highBars` of `analyzeHourlyCounts`: how many buckets are `>= median * 3`. -/
def highBarsOf (counts : List Nat) : Nat :=
  (counts.filter (fun c => decide (medianOf counts * 3 ≤ c))).length

/-- The record returned by `analyzeHourlyCounts` (the `address` field is
added later by the caller). -/
structure InferenceResult where
  utc_offset_hours : Int
  utc_label : String
  iana_tz_example : String
  median : Nat
  ratio : ℚ
  bars_high_over_mult : Nat
  passes_rule : Bool

/-- `analyzeHourlyCounts` of src/server/index.js, assembled from the pieces
above; `passes_rule` is `ratio > 0.5 && highBars >= 3`. -/
def analyzeHourlyCounts (counts : List Nat) : InferenceResult :=
  { utc_offset_hours := (bestOffsetScore counts).fst
    utc_label := "UTC" ++ (if 0 ≤ (bestOffsetScore counts).fst then "+" else "")
      ++ toString (bestOffsetScore counts).fst
    iana_tz_example := exampleTz (bestOffsetScore counts).fst
    median := medianOf counts
    ratio := ratioOf counts
    bars_high_over_mult := highBarsOf counts
    passes_rule := decide ((1 : ℚ) / 2 < ratioOf counts) && decide (3 ≤ highBarsOf counts) }

/-- JavaScript `String.prototype.toLowerCase`, modelled characterwise
(the addresses handled by the server are ASCII). -/
def lowerStr (s : String) : String :=
  ⟨s.data.map Char.toLower⟩

/-- JavaScript's default `Array.prototype.sort` comparison on strings:
lexicographic order on the code-unit sequences, as a Boolean `≤`. -/
def charsLe : List Char → List Char → Bool
  | [], _ => true
  | _ :: _, [] => false
  | a :: as, b :: bs => if a = b then charsLe as bs else decide (a < b)

/-- The sort order used for the cache key: `charsLe` on the character data. -/
def jsLe (a b : String) : Prop :=
  charsLe a.data b.data = true

instance : DecidableRel jsLe :=
  fun a b => instDecidableEqBool (charsLe a.data b.data) true

/-- The cache key of `POST /api/timezone`:
`addresses.map((a) => String(a).toLowerCase()).sort().join(',')`. -/
def cacheKey (addresses : List String) : String :=
  String.intercalate "," (List.insertionSort jsLe (addresses.map lowerStr))

/-- An activity event as seen by the accumulator.  `block_time` holds the
result of `Date.parse(ev.block_time)`: `some ts` (milliseconds since the
epoch) on success, `none` when parsing yields `NaN`.  Fields the accumulator
never reads (`kind`, ...) are omitted. -/
structure ActivityEvent where
  wallet_address : String
  block_time : Option Int
deriving DecidableEq

/-- JavaScript `new Date(ts).getUTCHours()`: `floor(ts / 3600000) mod 24`,
with the non-negative (mathematical) modulus. -/
def hourFromTime (ts : Int) : Nat :=
  ((ts.fdiv 3600000) % 24).toNat

/-- `counts24[hourUtc] = (counts24[hourUtc] || 0) + 1` for a fixed-size
bucket array. -/
def bumpHour (counts : List Nat) (h : Nat) : List Nat :=
  counts.set h (counts.getD h 0 + 1)

/-- The body of the `for (const ev of activity)` loop of
`accumulateHoursFromActivity`: skip events whose `block_time` did not parse;
skip events when the filter string is non-empty (truthy), the event's
`wallet_address` is non-empty (truthy) and its lowercase form differs from
the filter; otherwise bump the bucket of the event's UTC hour. -/
def stepEvent (filterAddrLower : String) (counts : List Nat) (ev : ActivityEvent) : List Nat :=
  match ev.block_time with
  | none => counts
  | some ts =>
    if filterAddrLower ≠ "" ∧ ev.wallet_address ≠ "" ∧ lowerStr ev.wallet_address ≠ filterAddrLower
    then counts
    else bumpHour counts (hourFromTime ts)

/-- `accumulateHoursFromActivity` of src/server/index.js: fold the loop body
over the event list. -/
def accumulateHoursFromActivity (counts24 : List Nat) (activity : List ActivityEvent)
    (filterAddrLower : String) : List Nat :=
  activity.foldl (stepEvent filterAddrLower) counts24

/-- Whether an event survives both guards of the accumulator loop (its
bucket gets incremented). -/
def keptEvent (filterAddrLower : String) (ev : ActivityEvent) : Bool :=
  match ev.block_time with
  | none => false
  | some _ =>
    !(decide (filterAddrLower ≠ "" ∧ ev.wallet_address ≠ ""
        ∧ lowerStr ev.wallet_address ≠ filterAddrLower))

/-- Whether an event parsed and its UTC hour is `h`. -/
def eventHourIs (ev : ActivityEvent) (h : Nat) : Bool :=
  match ev.block_time with
  | none => false
  | some ts => hourFromTime ts == h

/-- The address worker pool of `POST /api/timezone`, with the per-address
pipeline abstracted by the fetch oracle `hist` (the histogram
`fetchAddressHistogramSIM` would produce for an address): every queue
element is popped exactly once and contributes one `{address, ...score}`
record.  Workers pop from the tail of the queue, so the canonical
(single-worker) completion order is the reverse of the request order; the
schedule only permutes the output, never its multiset of records. -/
def processAddresses (hist : String → List Nat) (addresses : List String) :
    List (String × InferenceResult) :=
  addresses.reverse.map (fun address => (address, analyzeHourlyCounts (hist address)))

/-- The `addresses` field of the request body: missing, present but not an
array, or an array of strings. -/
inductive AddressesField where
  | absent : AddressesField
  | notAList : AddressesField
  | arr : List String → AddressesField

/-- What one invocation of the `POST /api/timezone` handler produces: the
HTTP status, the JSON payload on success, the cache contents afterwards, and
how many cache lookups and per-address fetches (`fetchAddressHistogramSIM`
invocations) happened. -/
structure ApiOutcome where
  status : Nat
  results : Option (List (String × InferenceResult))
  cacheAfter : List (String × List (String × InferenceResult))
  cacheReads : Nat
  fetchCalls : Nat

/-- `cache.get(key)` of the in-memory cache, on an association list. -/
def cacheGet {α : Type} (cache : List (String × α)) (key : String) : Option α :=
  (cache.find? (fun e => e.fst == key)).map Prod.snd

/-- `cache.set(key, value)`: replace any previous entry for the key. -/
def cacheSet {α : Type} (cache : List (String × α)) (key : String) (value : α) :
    List (String × α) :=
  (key, value) :: cache.filter (fun e => !(e.fst == key))

/-- The `POST /api/timezone` handler of src/server/index.js (TTL expiry is
not modelled; the cache is an association list).  Validation runs first:
a missing or non-array `addresses`, or an empty array, is answered with
status 400 before the cache is consulted or any fetch is issued.  Otherwise
the canonical key is looked up; on a hit the cached value is returned, on a
miss the worker pool computes one record per queue element and the result is
stored under the key. -/
def handleTimezoneRequest (hist : String → List Nat)
    (cache : List (String × List (String × InferenceResult)))
    (body : AddressesField) : ApiOutcome :=
  match body with
  | .arr addresses =>
    if addresses.length = 0 then
      { status := 400, results := none, cacheAfter := cache, cacheReads := 0, fetchCalls := 0 }
    else
      match cacheGet cache (cacheKey addresses) with
      | some v =>
        { status := 200, results := some v, cacheAfter := cache, cacheReads := 1, fetchCalls := 0 }
      | none =>
        { status := 200, results := some (processAddresses hist addresses),
          cacheAfter := cacheSet cache (cacheKey addresses) (processAddresses hist addresses),
          cacheReads := 1, fetchCalls := addresses.length }
  | _ => { status := 400, results := none, cacheAfter := cache, cacheReads := 0, fetchCalls := 0 }

/-- The histogram of the spec's worked example: hours 9–17 UTC at 10 events
each, every other hour at 0. -/
def businessHistogram : List Nat :=
  (List.range 24).map (fun i => if 9 ≤ i ∧ i ≤ 17 then 10 else 0)

/-- The daytime-window sum exactly as the spec words it: the sum of
`counts[i]` over the hours `i` with `(i + offset) mod 24` in `[8, 18)`. -/
def daytimeSumSpec (counts : List Nat) (offset : Int) : Nat :=
  (((List.range 24).filter
      (fun i : Nat => decide (8 ≤ (Int.ofNat i + offset) % 24 ∧ (Int.ofNat i + offset) % 24 < 18))).map
    (fun i => counts.getD i 0)).sum

/-- A conditional accumulating fold is the sum over the filtered list. -/
theorem foldl_cond_sum {α : Type} (p : α → Prop) [DecidablePred p] (g : α → Nat) :
    ∀ (L : List α) (s : Nat),
      L.foldl (fun a i => if p i then a + g i else a) s
        = s + ((L.filter (fun i => decide (p i))).map g).sum
  | [], s => by simp
  | i :: L, s => by
    by_cases h : p i
    · rw [List.foldl_cons, if_pos h, foldl_cond_sum p g L (s + g i)]
      simp [h, Nat.add_assoc]
    · rw [List.foldl_cons, if_neg h, foldl_cond_sum p g L s]
      simp [h]

/-- The code's daytime window sum agrees with the spec's formula
`(i + offset) mod 24 ∈ [8, 18)` (the code adds 24 before taking the
modulus, which does not change a Euclidean modulus). -/
theorem daytimeSum_eq_spec (counts : List Nat) (offset : Int) :
    daytimeSum counts offset = daytimeSumSpec counts offset := by
  unfold daytimeSum daytimeSumSpec
  rw [foldl_cond_sum (inDaytime offset) (fun i => counts.getD i 0) (List.range 24) 0,
    Nat.zero_add]
  congr 2
  apply List.filter_congr
  intro i _
  simp only [inDaytime, Int.ofNat_eq_coe]
  rw [decide_eq_decide]
  omega

/-- Reading a list back at indices `0..length-1` reproduces it. -/
theorem map_getD_range : ∀ (L : List Nat),
    (List.range L.length).map (fun i => L.getD i 0) = L
  | [] => by simp
  | a :: L => by
    rw [List.length_cons, List.range_succ_eq_map, List.map_cons, List.map_map]
    have hcomp : ((fun i => (a :: L).getD i 0) ∘ Nat.succ) = (fun i => L.getD i 0) := by
      funext i
      simp [Function.comp, List.getD_cons_succ]
    rw [List.getD_cons_zero, hcomp, map_getD_range L]

/-- `totalOf` is the list sum. -/
theorem totalOf_eq_sum (counts : List Nat) : totalOf counts = counts.sum := by
  unfold totalOf
  exact List.sum_eq_foldl.symm

/-- Every daytime-window sum is a sub-sum of the 24 buckets. -/
theorem daytimeSum_le_sum (counts : List Nat) (h24 : counts.length = 24) (offset : Int) :
    daytimeSum counts offset ≤ counts.sum := by
  rw [daytimeSum_eq_spec]
  unfold daytimeSumSpec
  have hsub := ((List.filter_sublist (l := List.range 24)
    (p := fun i : Nat => decide (8 ≤ (Int.ofNat i + offset) % 24
      ∧ (Int.ofNat i + offset) % 24 < 18))).map (fun i => counts.getD i 0))
  have hle := hsub.sum_le_sum (fun a _ => Nat.zero_le a)
  have hall : (List.range 24).map (fun i => counts.getD i 0) = counts := by
    rw [← h24]
    exact map_getD_range counts
  rw [hall] at hle
  exact hle

/-- Invariant of the best-offset fold: starting from a current best `(b, s)`
with every remaining candidate `≥ b` and the remaining candidates in
ascending order, the fold ends on the first candidate attaining the maximal
score (strict `>` keeps the incumbent on ties). -/
theorem foldl_scoreStep_spec (f : Int → Nat) :
    ∀ (L : List Int) (b : Int) (s : Nat),
      L.Pairwise (· ≤ ·) → (∀ o ∈ L, b ≤ o) →
      ∃ b' s', L.foldl (scoreStep f) (b, some s) = (b', some s')
        ∧ s ≤ s'
        ∧ ((b' = b ∧ s' = s) ∨ (b' ∈ L ∧ f b' = s' ∧ s < s'))
        ∧ (∀ o ∈ L, f o ≤ s')
        ∧ (∀ o ∈ L, f o = s' → b' ≤ o)
  | [], b, s, _, _ =>
    ⟨b, s, rfl, le_refl s, Or.inl ⟨rfl, rfl⟩, by simp, by simp⟩
  | o :: L, b, s, hpw, hble => by
    have hpwL : L.Pairwise (· ≤ ·) := (List.pairwise_cons.mp hpw).2
    have holeL : ∀ o' ∈ L, o ≤ o' := (List.pairwise_cons.mp hpw).1
    by_cases hlt : s < f o
    · have hstep : (o :: L).foldl (scoreStep f) (b, some s)
          = L.foldl (scoreStep f) (o, some (f o)) := by
        rw [List.foldl_cons]
        simp [scoreStep, hlt]
      obtain ⟨b', s', heq, hges, hdisj, hmax, hties⟩ :=
        foldl_scoreStep_spec f L o (f o) hpwL holeL
      refine ⟨b', s', by rw [hstep, heq], le_trans (le_of_lt hlt) hges, ?_, ?_, ?_⟩
      · rcases hdisj with ⟨hb, hs⟩ | ⟨hmem, hfb, hlt2⟩
        · exact Or.inr ⟨hb ▸ List.mem_cons_self o L, by rw [hb, hs], hs ▸ hlt⟩
        · exact Or.inr ⟨List.mem_cons_of_mem o hmem, hfb, lt_trans hlt hlt2⟩
      · intro o' ho'
        rcases List.mem_cons.mp ho' with h | h
        · exact h ▸ hges
        · exact hmax o' h
      · intro o' ho' hfo'
        rcases List.mem_cons.mp ho' with h | h
        · subst h
          rcases hdisj with ⟨hb, hs⟩ | ⟨_, _, hlt2⟩
          · rw [hb]
          · exact absurd (hfo' ▸ hlt2) (lt_irrefl (f o'))
        · exact hties o' h hfo'
    · have hstep : (o :: L).foldl (scoreStep f) (b, some s)
          = L.foldl (scoreStep f) (b, some s) := by
        rw [List.foldl_cons]
        simp [scoreStep, hlt]
      have hbleL : ∀ o' ∈ L, b ≤ o' := fun o' h => hble o' (List.mem_cons_of_mem o h)
      obtain ⟨b', s', heq, hges, hdisj, hmax, hties⟩ :=
        foldl_scoreStep_spec f L b s hpwL hbleL
      refine ⟨b', s', by rw [hstep, heq], hges, ?_, ?_, ?_⟩
      · rcases hdisj with h | ⟨hmem, hfb, hlt2⟩
        · exact Or.inl h
        · exact Or.inr ⟨List.mem_cons_of_mem o hmem, hfb, hlt2⟩
      · intro o' ho'
        rcases List.mem_cons.mp ho' with h | h
        · exact h ▸ le_trans (le_of_not_lt hlt) hges
        · exact hmax o' h
      · intro o' ho' hfo'
        rcases List.mem_cons.mp ho' with h | h
        · subst h
          rcases hdisj with ⟨hb, hs⟩ | ⟨_, _, hlt2⟩
          · exact hb ▸ hble o' (List.mem_cons_self o' L)
          · exact absurd (lt_of_le_of_lt (hfo' ▸ le_of_not_lt hlt) hlt2)
              (lt_irrefl s')
        · exact hties o' h hfo'

/-- The outer loop of `analyzeHourlyCounts` returns the first (most
negative) offset attaining the maximal daytime-window sum: the initial
`-Infinity` is replaced by the very first candidate `-12`, and afterwards
only a strictly larger score replaces the incumbent. -/
theorem bestOffsetScore_spec (counts : List Nat) :
    ∃ b' s', bestOffsetScore counts = (b', some s')
      ∧ b' ∈ offsetCandidates
      ∧ daytimeSum counts b' = s'
      ∧ (∀ o ∈ offsetCandidates, daytimeSum counts o ≤ s')
      ∧ (∀ o ∈ offsetCandidates, daytimeSum counts o = s' → b' ≤ o) := by
  have hcand : offsetCandidates
      = (-12 : Int) :: (List.range 26).map (fun k => (k : Int) - 11) := by decide
  have h0 : bestOffsetScore counts
      = ((List.range 26).map (fun k => (k : Int) - 11)).foldl
          (scoreStep (daytimeSum counts)) (-12, some (daytimeSum counts (-12))) := by
    rw [bestOffsetScore, hcand, List.foldl_cons]
    rfl
  obtain ⟨b', s', heq, hges, hdisj, hmax, hties⟩ :=
    foldl_scoreStep_spec (daytimeSum counts)
      ((List.range 26).map (fun k => (k : Int) - 11)) (-12) (daytimeSum counts (-12))
      (by decide) (by decide)
  refine ⟨b', s', by rw [h0, heq], ?_, ?_, ?_, ?_⟩
  · rw [hcand]
    rcases hdisj with ⟨hb, _⟩ | ⟨hmem, _, _⟩
    · exact hb ▸ List.mem_cons_self _ _
    · exact List.mem_cons_of_mem _ hmem
  · rcases hdisj with ⟨hb, hs⟩ | ⟨_, hfb, _⟩
    · rw [hb, hs]
    · exact hfb
  · intro o ho
    rw [hcand] at ho
    rcases List.mem_cons.mp ho with h | h
    · exact h ▸ hges
    · exact hmax o h
  · intro o ho hfo
    rw [hcand] at ho
    rcases List.mem_cons.mp ho with h | h
    · subst h
      rcases hdisj with ⟨hb, _⟩ | ⟨_, _, hlt2⟩
      · rw [hb]
      · exact absurd (hfo ▸ hlt2) (lt_irrefl _)
    · exact hties o h hfo

/-- `charsLe` is total. -/
theorem charsLe_total : ∀ (as bs : List Char), charsLe as bs = true ∨ charsLe bs as = true
  | [], _ => Or.inl rfl
  | _ :: _, [] => Or.inr rfl
  | a :: as, b :: bs => by
    by_cases hab : a = b
    · subst hab
      rcases charsLe_total as bs with h | h
      · exact Or.inl (by simp only [charsLe, if_pos rfl]; exact h)
      · exact Or.inr (by simp only [charsLe, if_pos rfl]; exact h)
    · rcases lt_or_gt_of_ne hab with h | h
      · exact Or.inl (by simp only [charsLe, if_neg hab]; exact decide_eq_true h)
      · exact Or.inr (by simp only [charsLe, if_neg (Ne.symm hab)]; exact decide_eq_true h)

/-- `charsLe` is transitive. -/
theorem charsLe_trans : ∀ (as bs cs : List Char),
    charsLe as bs = true → charsLe bs cs = true → charsLe as cs = true
  | [], _, _, _, _ => rfl
  | _ :: _, [], _, h1, _ => by simp [charsLe] at h1
  | _ :: _, _ :: _, [], _, h2 => by simp [charsLe] at h2
  | a :: as, b :: bs, c :: cs, h1, h2 => by
    by_cases hab : a = b
    · subst hab
      simp only [charsLe, if_pos rfl] at h1
      by_cases hac : a = c
      · subst hac
        simp only [charsLe, if_pos rfl] at h2 ⊢
        exact charsLe_trans as bs cs h1 h2
      · simp only [charsLe, if_neg hac] at h2 ⊢
        exact h2
    · simp only [charsLe, if_neg hab, decide_eq_true_eq] at h1
      by_cases hbc : b = c
      · subst hbc
        simp only [charsLe, if_neg hab]
        exact decide_eq_true h1
      · simp only [charsLe, if_neg hbc, decide_eq_true_eq] at h2
        have hac : a < c := lt_trans h1 h2
        simp only [charsLe, if_neg (ne_of_lt hac)]
        exact decide_eq_true hac

/-- `charsLe` is antisymmetric. -/
theorem charsLe_antisymm : ∀ (as bs : List Char),
    charsLe as bs = true → charsLe bs as = true → as = bs
  | [], [], _, _ => rfl
  | [], _ :: _, _, h2 => by simp [charsLe] at h2
  | _ :: _, [], h1, _ => by simp [charsLe] at h1
  | a :: as, b :: bs, h1, h2 => by
    by_cases hab : a = b
    · subst hab
      simp only [charsLe, if_pos rfl] at h1 h2
      rw [charsLe_antisymm as bs h1 h2]
    · simp only [charsLe, if_neg hab, if_neg (Ne.symm hab), decide_eq_true_eq] at h1 h2
      exact absurd h2 (lt_asymm h1)

instance : IsTotal String jsLe :=
  ⟨fun a b => charsLe_total a.data b.data⟩

instance : IsTrans String jsLe :=
  ⟨fun a b c => charsLe_trans a.data b.data c.data⟩

instance : IsAntisymm String jsLe :=
  ⟨fun a b h1 h2 => by
    cases a
    cases b
    exact congrArg String.mk (charsLe_antisymm _ _ h1 h2)⟩

/-- One accumulator step never changes the number of buckets. -/
theorem length_stepEvent (filterAddrLower : String) (counts : List Nat) (ev : ActivityEvent) :
    (stepEvent filterAddrLower counts ev).length = counts.length := by
  unfold stepEvent
  split
  · rfl
  · split
    · rfl
    · unfold bumpHour
      exact List.length_set counts _ _

/-- The accumulator never changes the number of buckets. -/
theorem length_accumulate (filterAddrLower : String) :
    ∀ (activity : List ActivityEvent) (counts : List Nat),
      (accumulateHoursFromActivity counts activity filterAddrLower).length = counts.length
  | [], _ => rfl
  | ev :: activity, counts => by
    show (accumulateHoursFromActivity (stepEvent filterAddrLower counts ev) activity
      filterAddrLower).length = counts.length
    rw [length_accumulate filterAddrLower activity (stepEvent filterAddrLower counts ev)]
    exact length_stepEvent filterAddrLower counts ev

/-- Bumping a bucket raises exactly that bucket by one. -/
theorem getD_bumpHour_self (counts : List Nat) (h : Nat) (hlt : h < counts.length) :
    (bumpHour counts h).getD h 0 = counts.getD h 0 + 1 := by
  unfold bumpHour
  rw [List.getD_eq_getElem?_getD, List.getElem?_set_self hlt]
  rfl

/-- Bumping a bucket leaves every other bucket unchanged. -/
theorem getD_bumpHour_ne (counts : List Nat) (i h : Nat) (hne : i ≠ h) :
    (bumpHour counts i).getD h 0 = counts.getD h 0 := by
  unfold bumpHour
  rw [List.getD_eq_getElem?_getD, List.getElem?_set_ne hne, ← List.getD_eq_getElem?_getD]

/-- Bucket-level characterisation of the accumulator: each bucket grows by
the number of kept events whose UTC hour is that bucket. -/
theorem accumulate_getD (filterAddrLower : String) :
    ∀ (activity : List ActivityEvent) (counts : List Nat) (h : Nat), h < counts.length →
      (accumulateHoursFromActivity counts activity filterAddrLower).getD h 0
        = counts.getD h 0
          + activity.countP (fun ev => keptEvent filterAddrLower ev && eventHourIs ev h)
  | [], counts, h, _ => by simp [accumulateHoursFromActivity]
  | ev :: activity, counts, h, hlt => by
    have hstep : accumulateHoursFromActivity counts (ev :: activity) filterAddrLower
        = accumulateHoursFromActivity (stepEvent filterAddrLower counts ev) activity
            filterAddrLower := rfl
    have hlen : h < (stepEvent filterAddrLower counts ev).length := by
      rw [length_stepEvent]
      exact hlt
    rw [hstep, accumulate_getD filterAddrLower activity _ h hlen, List.countP_cons]
    rcases hbt : ev.block_time with _ | ts
    · have hk : keptEvent filterAddrLower ev = false := by
        unfold keptEvent
        rw [hbt]
      have hs : stepEvent filterAddrLower counts ev = counts := by
        unfold stepEvent
        rw [hbt]
      rw [hs, hk]
      simp
    · by_cases hc : filterAddrLower ≠ "" ∧ ev.wallet_address ≠ ""
          ∧ lowerStr ev.wallet_address ≠ filterAddrLower
      · have hk : keptEvent filterAddrLower ev = false := by
          unfold keptEvent
          rw [hbt]
          simp [hc]
        have hs : stepEvent filterAddrLower counts ev = counts := by
          unfold stepEvent
          rw [hbt]
          exact if_pos hc
        rw [hs, hk]
        simp
      · have hk : keptEvent filterAddrLower ev = true := by
          unfold keptEvent
          rw [hbt]
          simp [hc]
        have hs : stepEvent filterAddrLower counts ev = bumpHour counts (hourFromTime ts) := by
          unfold stepEvent
          rw [hbt]
          exact if_neg hc
        have he : eventHourIs ev h = (hourFromTime ts == h) := by
          unfold eventHourIs
          rw [hbt]
        by_cases hh : hourFromTime ts = h
        · rw [hs, hh, getD_bumpHour_self counts h hlt, hk, he, hh]
          simp
          omega
        · rw [hs, getD_bumpHour_ne counts _ h hh, hk, he]
          simp [hh]

/-- The accumulator is order-independent: permuted event lists produce the
same histogram. -/
theorem accumulate_perm (filterAddrLower : String) (counts : List Nat)
    {activity activity2 : List ActivityEvent} (hperm : activity.Perm activity2) :
    accumulateHoursFromActivity counts activity filterAddrLower
      = accumulateHoursFromActivity counts activity2 filterAddrLower := by
  apply List.ext_getElem
  · rw [length_accumulate, length_accumulate]
  · intro n h1 h2
    have hl : n < counts.length := by
      rw [length_accumulate] at h1
      exact h1
    have hgd : (accumulateHoursFromActivity counts activity filterAddrLower).getD n 0
        = (accumulateHoursFromActivity counts activity2 filterAddrLower).getD n 0 := by
      rw [accumulate_getD filterAddrLower activity counts n hl,
        accumulate_getD filterAddrLower activity2 counts n hl,
        hperm.countP_eq]
    rw [List.getD_eq_getElem _ _ h1, List.getD_eq_getElem _ _ h2] at hgd
    exact hgd

/-- C1 counterexample: on the all-zero histogram the scorer does not return
`utc_offset_hours == 0` — the first offset evaluated is `-12`, its zero score
replaces the initial `-Infinity`, and no later zero score strictly exceeds
it. -/
theorem allzero_offset_not_zero :
    (analyzeHourlyCounts (List.replicate 24 0)).utc_offset_hours ≠ 0 := by decide

/-- C1 (amended): on the all-zero histogram the scorer returns
`utc_offset_hours == -12`, `iana_tz_example == "Etc/GMT+12"` and
`passes_rule == false`. -/
theorem allzero_analysis :
    (analyzeHourlyCounts (List.replicate 24 0)).utc_offset_hours = -12
    ∧ (analyzeHourlyCounts (List.replicate 24 0)).iana_tz_example = "Etc/GMT+12"
    ∧ (analyzeHourlyCounts (List.replicate 24 0)).passes_rule = false := by
  refine ⟨by decide, by decide, ?_⟩
  have hr : ratioOf (List.replicate 24 0) = 0 := by
    unfold ratioOf
    rw [if_pos (by decide : totalOf (List.replicate 24 0) = 0)]
  show (decide ((1 : ℚ) / 2 < ratioOf (List.replicate 24 0))
      && decide (3 ≤ highBarsOf (List.replicate 24 0))) = false
  rw [hr, decide_eq_false (by norm_num : ¬ ((1 : ℚ) / 2 < (0 : ℚ))), Bool.false_and]

/-- C2 counterexample: on the histogram with hours 9–17 at 10 events each the
scorer does not return `utc_offset_hours == 0`: offset `-1` attains the same
maximal daytime sum 90 and, being evaluated first, wins the tie under the
strict `>` comparison. -/
theorem businessHours_offset_not_zero :
    (analyzeHourlyCounts businessHistogram).utc_offset_hours ≠ 0 := by decide

/-- C2 (amended): on the histogram with hours 9–17 at 10 each,
`daytimeSum(0) = 90` and `ratio == 1.0` as claimed, but the selected offset
is `-1` (the most negative of the tied offsets `-1` and `0`). -/
theorem businessHours_analysis :
    daytimeSum businessHistogram 0 = 90
    ∧ (analyzeHourlyCounts businessHistogram).utc_offset_hours = -1
    ∧ (analyzeHourlyCounts businessHistogram).ratio = 1 := by
  refine ⟨by decide, by decide, ?_⟩
  show ratioOf businessHistogram = 1
  unfold ratioOf
  rw [if_neg (by decide : ¬ totalOf businessHistogram = 0),
    show (bestOffsetScore businessHistogram).snd.getD 0 = 90 from by decide,
    show totalOf businessHistogram = 90 from by decide]
  norm_num

/-- C3: the scorer walks the candidate offsets `-12..14` in ascending order
and, because the comparison is a strict `>`, returns the lowest-valued
offset among those attaining the maximal daytime-window sum; the
daytime-window sum also agrees with the spec's
`(i + offset) mod 24 ∈ [8, 18)` formula, and the whole selection is a pure
function of the histogram (determinism). -/
theorem bestOffset_first_argmax (counts : List Nat) (h24 : counts.length = 24) :
    (∀ offset, daytimeSum counts offset = daytimeSumSpec counts offset)
    ∧ (analyzeHourlyCounts counts).utc_offset_hours ∈ offsetCandidates
    ∧ (∀ o ∈ offsetCandidates,
        daytimeSum counts o ≤ daytimeSum counts (analyzeHourlyCounts counts).utc_offset_hours)
    ∧ (∀ o ∈ offsetCandidates,
        daytimeSum counts o = daytimeSum counts (analyzeHourlyCounts counts).utc_offset_hours
          → (analyzeHourlyCounts counts).utc_offset_hours ≤ o) := by
  obtain ⟨b', s', heq, hmem, hfb, hmax, hties⟩ := bestOffsetScore_spec counts
  have huo : (analyzeHourlyCounts counts).utc_offset_hours = b' := by
    show (bestOffsetScore counts).fst = b'
    rw [heq]
  rw [huo, hfb]
  exact ⟨fun o => daytimeSum_eq_spec counts o, hmem, hmax, hties⟩

/-- Witness for C3 at the business-hours histogram. -/
theorem bestOffset_first_argmax_witness :
    businessHistogram.length = 24
    ∧ ((∀ offset, daytimeSum businessHistogram offset = daytimeSumSpec businessHistogram offset)
      ∧ (analyzeHourlyCounts businessHistogram).utc_offset_hours ∈ offsetCandidates
      ∧ (∀ o ∈ offsetCandidates, daytimeSum businessHistogram o
          ≤ daytimeSum businessHistogram (analyzeHourlyCounts businessHistogram).utc_offset_hours)
      ∧ (∀ o ∈ offsetCandidates, daytimeSum businessHistogram o
          = daytimeSum businessHistogram (analyzeHourlyCounts businessHistogram).utc_offset_hours
            → (analyzeHourlyCounts businessHistogram).utc_offset_hours ≤ o)) :=
  ⟨by decide, bestOffset_first_argmax businessHistogram (by decide)⟩

/-- C4: the scorer's median is the element at index 12 of the ascending sort
of the 24 buckets (the literal `sorted[12]`, not an averaged even-length
median); the sort acts on a copy, the input histogram itself being an
untouched argument of the characterisation. -/
theorem median_is_sorted_twelve (counts s : List Nat) (h24 : counts.length = 24)
    (hperm : s.Perm counts) (hsorted : s.Sorted (· ≤ ·)) :
    (analyzeHourlyCounts counts).median = s.getD 12 0 := by
  have hs : s = List.insertionSort (· ≤ ·) counts :=
    List.eq_of_perm_of_sorted (hperm.trans (List.perm_insertionSort _ counts).symm)
      hsorted (List.sorted_insertionSort _ counts)
  have hlen : (List.insertionSort (· ≤ ·) counts).length = 24 := by
    rw [(List.perm_insertionSort (· ≤ ·) counts).length_eq, h24]
  show medianOf counts = s.getD 12 0
  unfold medianOf
  rw [hlen, hs]

/-- Witness for C4: the reversed range 0..23 sorts back to the range, whose
12th element is 12. -/
theorem median_is_sorted_twelve_witness :
    (List.range 24).reverse.length = 24
    ∧ (List.range 24).Perm ((List.range 24).reverse)
    ∧ (List.range 24).Sorted (· ≤ ·)
    ∧ (analyzeHourlyCounts ((List.range 24).reverse)).median = (List.range 24).getD 12 0 :=
  ⟨by decide, by decide, by decide,
    median_is_sorted_twelve ((List.range 24).reverse) (List.range 24) (by decide) (by decide)
      (by decide)⟩

/-- C5: the scorer's confidence metrics: `ratio` is `bestScore / total`
(`0` when `total == 0`, where `bestScore` is the daytime sum of the selected
offset), `bars_high_over_mult` counts the buckets `>= median * 3`, and
`passes_rule` holds exactly when `ratio > 0.5` and `highBars >= 3`. -/
theorem confidence_metrics_formulas (counts : List Nat) (h24 : counts.length = 24) :
    (counts.sum = 0 → (analyzeHourlyCounts counts).ratio = 0)
    ∧ (counts.sum ≠ 0 → (analyzeHourlyCounts counts).ratio
        = (daytimeSum counts (analyzeHourlyCounts counts).utc_offset_hours : ℚ)
          / (counts.sum : ℚ))
    ∧ (analyzeHourlyCounts counts).bars_high_over_mult
        = counts.countP (fun c => decide ((analyzeHourlyCounts counts).median * 3 ≤ c))
    ∧ ((analyzeHourlyCounts counts).passes_rule = true
        ↔ ((1 : ℚ) / 2 < (analyzeHourlyCounts counts).ratio
            ∧ 3 ≤ (analyzeHourlyCounts counts).bars_high_over_mult)) := by
  obtain ⟨b', s', heq, hmem, hfb, hmax, hties⟩ := bestOffsetScore_spec counts
  have htot : totalOf counts = counts.sum := totalOf_eq_sum counts
  refine ⟨?_, ?_, ?_, ?_⟩
  · intro h0
    show ratioOf counts = 0
    unfold ratioOf
    rw [htot, if_pos h0]
  · intro h0
    show ratioOf counts
        = (daytimeSum counts (analyzeHourlyCounts counts).utc_offset_hours : ℚ)
          / (counts.sum : ℚ)
    have huo : (analyzeHourlyCounts counts).utc_offset_hours = b' := by
      show (bestOffsetScore counts).fst = b'
      rw [heq]
    have hbs : (bestOffsetScore counts).snd.getD 0 = s' := by
      rw [heq]
      rfl
    unfold ratioOf
    rw [htot, if_neg h0, hbs, huo, hfb]
  · show highBarsOf counts = counts.countP (fun c => decide (medianOf counts * 3 ≤ c))
    unfold highBarsOf
    exact (List.countP_eq_length_filter _ _).symm
  · show (decide ((1 : ℚ) / 2 < ratioOf counts) && decide (3 ≤ highBarsOf counts)) = true
      ↔ ((1 : ℚ) / 2 < ratioOf counts ∧ 3 ≤ highBarsOf counts)
    rw [Bool.and_eq_true, decide_eq_true_eq, decide_eq_true_eq]

/-- Witness for C5 at the business-hours histogram. -/
theorem confidence_metrics_formulas_witness :
    businessHistogram.length = 24
    ∧ ((businessHistogram.sum = 0 → (analyzeHourlyCounts businessHistogram).ratio = 0)
      ∧ (businessHistogram.sum ≠ 0 → (analyzeHourlyCounts businessHistogram).ratio
          = (daytimeSum businessHistogram
                (analyzeHourlyCounts businessHistogram).utc_offset_hours : ℚ)
            / (businessHistogram.sum : ℚ))
      ∧ (analyzeHourlyCounts businessHistogram).bars_high_over_mult
          = businessHistogram.countP
              (fun c => decide ((analyzeHourlyCounts businessHistogram).median * 3 ≤ c))
      ∧ ((analyzeHourlyCounts businessHistogram).passes_rule = true
          ↔ ((1 : ℚ) / 2 < (analyzeHourlyCounts businessHistogram).ratio
              ∧ 3 ≤ (analyzeHourlyCounts businessHistogram).bars_high_over_mult))) :=
  ⟨by decide, confidence_metrics_formulas businessHistogram (by decide)⟩

/-- C6 counterexample: the cache key is not a function of the mere set of
requested addresses.  The two lists here contain exactly the same addresses
(already lower-case) and differ only in a duplicate, yet their keys
differ. -/
theorem cacheKey_duplicates_differ :
    (∀ a, a ∈ (["0xabc", "0xabc"] : List String).map lowerStr
      ↔ a ∈ (["0xabc"] : List String).map lowerStr)
    ∧ cacheKey ["0xabc", "0xabc"] ≠ cacheKey ["0xabc"] :=
  ⟨fun a => by simp, by decide⟩

/-- C6 (amended): the cache key is insensitive to order and letter case of
the request list — any two lists whose lower-cased forms are permutations of
each other (the same multiset, duplicates counted) get the same key.  It is
not a pure function of the set of addresses: the counterexample above shows
one pair of lists denoting the same set whose keys differ. -/
theorem cacheKey_perm_invariant (l1 l2 : List String)
    (h : (l1.map lowerStr).Perm (l2.map lowerStr)) : cacheKey l1 = cacheKey l2 := by
  unfold cacheKey
  congr 1
  exact List.eq_of_perm_of_sorted
    (((List.perm_insertionSort jsLe _).trans h).trans (List.perm_insertionSort jsLe _).symm)
    (List.sorted_insertionSort jsLe _) (List.sorted_insertionSort jsLe _)

/-- Witness for C6: the spec's own example, case and order varied. -/
theorem cacheKey_perm_invariant_witness :
    ((["0xABC", "0xdef"] : List String).map lowerStr).Perm
      ((["0xdef", "0xabc"] : List String).map lowerStr)
    ∧ cacheKey ["0xABC", "0xdef"] = cacheKey ["0xdef", "0xabc"] :=
  ⟨by decide, cacheKey_perm_invariant ["0xABC", "0xdef"] ["0xdef", "0xabc"] (by decide)⟩

/-- C7 counterexample: a request list with a duplicated address yields two
result records for that one distinct address, not one. -/
theorem results_duplicate_address_twice :
    ((processAddresses (fun _ => List.replicate 24 0) ["0xa", "0xa"]).filter
      (fun r => r.fst == "0xa")).length ≠ 1 := by decide

/-- C7 (amended): the worker pool emits exactly one `{address, ...score}`
record per occurrence of an address in the request list (so exactly one per
distinct address whenever the request list has no duplicates). -/
theorem results_one_per_occurrence (hist : String → List Nat) (addresses : List String)
    (a : String) (ha : a ∈ addresses) :
    ((processAddresses hist addresses).filter (fun r => r.fst == a)).length
      = addresses.count a
    ∧ (addresses.Nodup →
        ((processAddresses hist addresses).filter (fun r => r.fst == a)).length = 1) := by
  have hcount : ((processAddresses hist addresses).filter (fun r => r.fst == a)).length
      = addresses.count a :=
    calc ((processAddresses hist addresses).filter (fun r => r.fst == a)).length
        = (addresses.reverse.filter (fun x => x == a)).length := by
          unfold processAddresses
          rw [List.filter_map, List.length_map]
          rfl
      _ = addresses.reverse.countP (fun x => x == a) :=
          (List.countP_eq_length_filter _ _).symm
      _ = addresses.reverse.count a := rfl
      _ = addresses.count a := List.count_reverse a addresses
  exact ⟨hcount, fun hnd => hcount.trans (List.count_eq_one_of_mem hnd ha)⟩

/-- Witness for C7 on a duplicate-free two-address request. -/
theorem results_one_per_occurrence_witness :
    ("0xa" : String) ∈ (["0xa", "0xb"] : List String)
    ∧ (((processAddresses (fun _ => List.replicate 24 0) ["0xa", "0xb"]).filter
          (fun r => r.fst == "0xa")).length = (["0xa", "0xb"] : List String).count "0xa"
      ∧ ((["0xa", "0xb"] : List String).Nodup →
          ((processAddresses (fun _ => List.replicate 24 0) ["0xa", "0xb"]).filter
            (fun r => r.fst == "0xa")).length = 1)) :=
  ⟨by decide,
    results_one_per_occurrence (fun _ => List.replicate 24 0) ["0xa", "0xb"] "0xa" (by decide)⟩

/-- C8 counterexample: an event whose `wallet_address` is empty (falsy) is
kept even though a filter is given and the empty address does not match it:
the guard `ev.wallet_address && ...` short-circuits, and the event's bucket
is incremented instead of the event being discarded. -/
theorem accumulate_empty_address_kept :
    lowerStr (ActivityEvent.mk "" (some 0)).wallet_address ≠ "0xabc"
    ∧ accumulateHoursFromActivity (List.replicate 24 0) [ActivityEvent.mk "" (some 0)] "0xabc"
        ≠ List.replicate 24 0
    ∧ (accumulateHoursFromActivity (List.replicate 24 0) [ActivityEvent.mk "" (some 0)]
        "0xabc").getD 0 0 = 1 :=
  ⟨by decide, by decide, by decide⟩

/-- C8 (amended): an event is discarded when its `block_time` fails to
parse, or when a filter is given, the event's address is non-empty and its
lower-cased address differs from the filter (an event with an empty or
missing address is kept even under a filter); every kept event increments
exactly the bucket of its UTC hour by 1 (`keptEvent`/`eventHourIs` spell out
these guards), and the histogram is the same for every ordering of the
events. -/
theorem accumulate_characterization (filterAddrLower : String) (counts24 : List Nat)
    (h24 : counts24.length = 24) (activity activity2 : List ActivityEvent)
    (hperm : activity.Perm activity2) :
    (∀ h < 24, (accumulateHoursFromActivity counts24 activity filterAddrLower).getD h 0
        = counts24.getD h 0
          + activity.countP (fun ev => keptEvent filterAddrLower ev && eventHourIs ev h))
    ∧ accumulateHoursFromActivity counts24 activity filterAddrLower
        = accumulateHoursFromActivity counts24 activity2 filterAddrLower := by
  constructor
  · intro h hh
    exact accumulate_getD filterAddrLower activity counts24 h (by rw [h24]; exact hh)
  · exact accumulate_perm filterAddrLower counts24 hperm

/-- Witness for C8: a filtered-out event, a kept event and an unparseable
event, in two different orders. -/
theorem accumulate_characterization_witness :
    (List.replicate 24 0 : List Nat).length = 24
    ∧ ([ActivityEvent.mk "0xAbC" (some 3600000), ActivityEvent.mk "0xother" (some 0),
          ActivityEvent.mk "0xabc" none] : List ActivityEvent).Perm
        [ActivityEvent.mk "0xabc" none, ActivityEvent.mk "0xother" (some 0),
          ActivityEvent.mk "0xAbC" (some 3600000)]
    ∧ ((∀ h < 24, (accumulateHoursFromActivity (List.replicate 24 0)
          [ActivityEvent.mk "0xAbC" (some 3600000), ActivityEvent.mk "0xother" (some 0),
            ActivityEvent.mk "0xabc" none] "0xabc").getD h 0
        = (List.replicate 24 0 : List Nat).getD h 0
          + ([ActivityEvent.mk "0xAbC" (some 3600000), ActivityEvent.mk "0xother" (some 0),
              ActivityEvent.mk "0xabc" none] : List ActivityEvent).countP
              (fun ev => keptEvent "0xabc" ev && eventHourIs ev h))
      ∧ accumulateHoursFromActivity (List.replicate 24 0)
          [ActivityEvent.mk "0xAbC" (some 3600000), ActivityEvent.mk "0xother" (some 0),
            ActivityEvent.mk "0xabc" none] "0xabc"
        = accumulateHoursFromActivity (List.replicate 24 0)
            [ActivityEvent.mk "0xabc" none, ActivityEvent.mk "0xother" (some 0),
              ActivityEvent.mk "0xAbC" (some 3600000)] "0xabc") :=
  ⟨by decide, by decide,
    accumulate_characterization "0xabc" (List.replicate 24 0) (by decide) _ _ (by decide)⟩

/-- C9: a request whose `addresses` field is missing, not an array, or an
empty array is rejected with status 400 before anything else happens: no
payload, no cache read or write, and no fetch. -/
theorem invalid_addresses_rejected_before_fetch (hist : String → List Nat)
    (cache : List (String × List (String × InferenceResult))) (body : AddressesField)
    (hbad : body = AddressesField.absent ∨ body = AddressesField.notAList
      ∨ body = AddressesField.arr []) :
    (handleTimezoneRequest hist cache body).status = 400
    ∧ (handleTimezoneRequest hist cache body).results = none
    ∧ (handleTimezoneRequest hist cache body).cacheAfter = cache
    ∧ (handleTimezoneRequest hist cache body).cacheReads = 0
    ∧ (handleTimezoneRequest hist cache body).fetchCalls = 0 := by
  rcases hbad with h | h | h <;> subst h <;> exact ⟨rfl, rfl, rfl, rfl, rfl⟩

/-- Witness for C9 at the empty address array. -/
theorem invalid_addresses_rejected_witness :
    (handleTimezoneRequest (fun _ => List.replicate 24 0) [] (AddressesField.arr [])).status = 400
    ∧ (handleTimezoneRequest (fun _ => List.replicate 24 0) []
        (AddressesField.arr [])).results = none
    ∧ (handleTimezoneRequest (fun _ => List.replicate 24 0) []
        (AddressesField.arr [])).cacheAfter = []
    ∧ (handleTimezoneRequest (fun _ => List.replicate 24 0) []
        (AddressesField.arr [])).cacheReads = 0
    ∧ (handleTimezoneRequest (fun _ => List.replicate 24 0) []
        (AddressesField.arr [])).fetchCalls = 0 :=
  invalid_addresses_rejected_before_fetch (fun _ => List.replicate 24 0) []
    (AddressesField.arr []) (Or.inr (Or.inr rfl))

/-- C10: on any 24-bucket histogram of (non-negative) counts the selected
score is a sub-sum of the buckets, so `0 ≤ bestScore ≤ total`, the ratio
lies in `[0, 1]`, and the selected offset lies in `[-12, 14]`. -/
theorem score_bounds (counts : List Nat) (h24 : counts.length = 24) :
    daytimeSum counts (analyzeHourlyCounts counts).utc_offset_hours ≤ counts.sum
    ∧ 0 ≤ (analyzeHourlyCounts counts).ratio
    ∧ (analyzeHourlyCounts counts).ratio ≤ 1
    ∧ -12 ≤ (analyzeHourlyCounts counts).utc_offset_hours
    ∧ (analyzeHourlyCounts counts).utc_offset_hours ≤ 14 := by
  obtain ⟨b', s', heq, hmem, hfb, hmax, hties⟩ := bestOffsetScore_spec counts
  have huo : (analyzeHourlyCounts counts).utc_offset_hours = b' := by
    show (bestOffsetScore counts).fst = b'
    rw [heq]
  have hbounds : ∀ o ∈ offsetCandidates, -12 ≤ o ∧ o ≤ 14 := by decide
  have hle : daytimeSum counts b' ≤ counts.sum := daytimeSum_le_sum counts h24 b'
  have hratio0 : 0 ≤ ratioOf counts := by
    unfold ratioOf
    split
    · exact le_refl 0
    · exact div_nonneg (Nat.cast_nonneg _) (Nat.cast_nonneg _)
  have hratio1 : ratioOf counts ≤ 1 := by
    unfold ratioOf
    split
    · norm_num
    · rename_i h0
      have hpos : (0 : ℚ) < (totalOf counts : ℚ) := by
        exact_mod_cast Nat.pos_of_ne_zero h0
      rw [div_le_one hpos]
      have hbs : (bestOffsetScore counts).snd.getD 0 = s' := by
        rw [heq]
        rfl
      rw [hbs, ← hfb, totalOf_eq_sum]
      exact_mod_cast hle
  refine ⟨?_, hratio0, hratio1, ?_, ?_⟩
  · rw [huo]
    exact hle
  · rw [huo]
    exact (hbounds b' hmem).1
  · rw [huo]
    exact (hbounds b' hmem).2

/-- Witness for C10 at the business-hours histogram. -/
theorem score_bounds_witness :
    businessHistogram.length = 24
    ∧ (daytimeSum businessHistogram
          (analyzeHourlyCounts businessHistogram).utc_offset_hours ≤ businessHistogram.sum
      ∧ 0 ≤ (analyzeHourlyCounts businessHistogram).ratio
      ∧ (analyzeHourlyCounts businessHistogram).ratio ≤ 1
      ∧ -12 ≤ (analyzeHourlyCounts businessHistogram).utc_offset_hours
      ∧ (analyzeHourlyCounts businessHistogram).utc_offset_hours ≤ 14) :=
  ⟨by decide, score_bounds businessHistogram (by decide)⟩
